import Mathlib

/-!
Shallow embedding of the image-decode and raster-composition layer of
`canvas_base.c` (spice-common cairo canvas base), together with proofs
about its pixel-format conversion, palette resolution, mask generation,
chunked Quic input traversal and the lazily-computed inverse-surface
cache.

Machine integers are modelled as `Nat`; a C `uint8_t` is a `Nat < 256`,
a C `uint32_t` a `Nat < 2^32`.  Where C truncates on a store, the
embedding truncates explicitly.  `ASSERT(x)` / `CANVAS_ERROR` abort the
call; fallible operations therefore return `Option`, with `none` for an
aborted call.
-/

namespace CanvasBase

/-- A palette, `Palette {num_ents, ents[]}` of `draw.h`.  `ents` is the
word-indexed memory starting at the entries array: the C code indexes
`palette->ents[i]` also for `i >= num_ents` (an out-of-bounds read that
returns whatever word sits there), so `ents` is modelled as a total
function on indices. -/
structure Palette where
  num_ents : Nat
  ents : Nat → Nat

/-- `canvas_16bpp_to_32bpp` (canvas_base.c:101): expand a 16-bit
5-5-5 packed pixel to a 32-bit pixel.  The C accumulates three `ret |=`
statements; the nesting below mirrors that accumulation order. -/
def canvas_16bpp_to_32bpp (color : Nat) : Nat :=
  ((((color &&& 0x001f) <<< 3) ||| ((color &&& 0x001c) >>> 2)) |||
    (((color &&& 0x03e0) <<< 6) ||| ((color &&& 0x0380) <<< 1))) |||
    (((color &&& 0x7c00) <<< 9) ||| ((color &&& 0x7000) <<< 4))

/-- The per-component expansion formula of the specification with
`n = 5`: `(c <<< (8-n)) ||| (c >>> (2*n-8))`. -/
def expand_component5 (c : Nat) : Nat :=
  (c <<< (8 - 5)) ||| (c >>> (2 * 5 - 8))

/-- `canvas_localize_palette` (canvas_base.c:215): in 16-bit color mode
(`color_shift == 5`) every one of the `num_ents` entries is expanded in
place through `canvas_16bpp_to_32bpp`; otherwise the palette is left
alone. -/
def canvas_localize_palette (color_shift : Nat) (p : Palette) : Palette :=
  if color_shift = 5 then
    { num_ents := p.num_ents
      ents := fun i => if i < p.num_ents then canvas_16bpp_to_32bpp (p.ents i) else p.ents i }
  else p

/-- Masking with a shifted mask equals masking the shifted value:
a generic bit-level fact used to split `canvas_16bpp_to_32bpp` into its
three independent component computations. -/
lemma and_shiftLeft_mask (x m k : Nat) :
    x &&& (m <<< k) = ((x >>> k) &&& m) <<< k := by
  apply Nat.eq_of_testBit_eq
  intro i
  simp only [Nat.testBit_and, Nat.testBit_shiftLeft, Nat.testBit_shiftRight]
  by_cases h : k ≤ i
  · simp [h, Nat.add_sub_cancel' h, Bool.and_comm, Bool.and_left_comm]
  · simp [h]

/-- Blue line of `canvas_16bpp_to_32bpp`, written on the extracted
5-bit field, equals the spec formula. -/
lemma comp_blue : ∀ b < 32, (b <<< 3) ||| ((b &&& 0x1c) >>> 2) = expand_component5 b := by
  decide

/-- Green line of `canvas_16bpp_to_32bpp`, written on the extracted
5-bit field, equals the spec formula shifted into the second byte. -/
lemma comp_green : ∀ g < 32,
    (g <<< 11) ||| ((g &&& 0x1c) <<< 6) = expand_component5 g <<< 8 := by
  decide

/-- Red line of `canvas_16bpp_to_32bpp`, written on the extracted
5-bit field, equals the spec formula shifted into the third byte. -/
lemma comp_red : ∀ r < 32,
    (r <<< 19) ||| ((r &&& 0x1c) <<< 14) = expand_component5 r <<< 16 := by
  decide

/-- `canvas_16bpp_to_32bpp` decomposes into the three independent
component expansions, OR-combined at bit offsets 0, 8 and 16. -/
lemma canvas_16bpp_decomp (color : Nat) :
    canvas_16bpp_to_32bpp color =
      expand_component5 (color &&& 0x1f) |||
        (expand_component5 ((color >>> 5) &&& 0x1f) <<< 8) |||
        (expand_component5 ((color >>> 10) &&& 0x1f) <<< 16) := by
  have hb : color &&& 0x1f < 32 := Nat.lt_succ_of_le (Nat.and_le_right)
  have hg : (color >>> 5) &&& 0x1f < 32 := Nat.lt_succ_of_le (Nat.and_le_right)
  have hr : (color >>> 10) &&& 0x1f < 32 := Nat.lt_succ_of_le (Nat.and_le_right)
  have h1c : (0x1f : Nat) &&& 0x1c = 0x1c := by decide
  have e1c : color &&& 0x1c = (color &&& 0x1f) &&& 0x1c := by
    rw [Nat.and_assoc, h1c]
  have e3e0 : color &&& 0x03e0 = ((color >>> 5) &&& 0x1f) <<< 5 := by
    have : (0x03e0 : Nat) = 0x1f <<< 5 := by decide
    rw [this, and_shiftLeft_mask]
  have e380 : color &&& 0x0380 = (((color >>> 5) &&& 0x1f) &&& 0x1c) <<< 5 := by
    have : (0x0380 : Nat) = 0x1c <<< 5 := by decide
    rw [this, and_shiftLeft_mask, Nat.and_assoc, h1c]
  have e7c00 : color &&& 0x7c00 = ((color >>> 10) &&& 0x1f) <<< 10 := by
    have : (0x7c00 : Nat) = 0x1f <<< 10 := by decide
    rw [this, and_shiftLeft_mask]
  have e7000 : color &&& 0x7000 = (((color >>> 10) &&& 0x1f) &&& 0x1c) <<< 10 := by
    have : (0x7000 : Nat) = 0x1c <<< 10 := by decide
    rw [this, and_shiftLeft_mask, Nat.and_assoc, h1c]
  unfold canvas_16bpp_to_32bpp
  rw [e1c, e3e0, e380, e7c00, e7000,
    ← Nat.shiftLeft_add, ← Nat.shiftLeft_add,
    ← Nat.shiftLeft_add, ← Nat.shiftLeft_add]
  norm_num
  rw [comp_blue _ hb, comp_green _ hg, comp_red _ hr]

end CanvasBase

namespace CanvasBase

/-- C5: `canvas_16bpp_to_32bpp` expands the three 5-bit components of a
16-bit pixel independently through `(c <<< 3) ||| (c >>> 2)` (the spec
formula `(c <<< (8-n)) ||| (c >>> (2n-8))` with `n = 5`) and OR-combines
them at bit offsets 0, 8 and 16; over all `2^5` component values that
per-component map is strictly monotonic and injective. -/
theorem C5_16bpp_expansion (color : Nat) :
    canvas_16bpp_to_32bpp color =
      expand_component5 (color &&& 0x1f) |||
        (expand_component5 ((color >>> 5) &&& 0x1f) <<< 8) |||
        (expand_component5 ((color >>> 10) &&& 0x1f) <<< 16) ∧
    (∀ c < 32, ∀ d < 32, c < d → expand_component5 c < expand_component5 d) ∧
    (∀ c < 32, ∀ d < 32, expand_component5 c = expand_component5 d → c = d) := by
  refine ⟨canvas_16bpp_decomp color, ?_, ?_⟩
  · decide
  · decide

/-- Witness for C5 at the concrete pixel `0x7fff` and the component
pair `3 < 10`. -/
theorem C5_16bpp_expansion_witness :
    canvas_16bpp_to_32bpp 0x7fff =
      expand_component5 (0x7fff &&& 0x1f) |||
        (expand_component5 ((0x7fff >>> 5) &&& 0x1f) <<< 8) |||
        (expand_component5 ((0x7fff >>> 10) &&& 0x1f) <<< 16) ∧
    expand_component5 3 < expand_component5 10 :=
  ⟨(C5_16bpp_expansion 0x7fff).1,
    (C5_16bpp_expansion 0x7fff).2.1 3 (by decide) 10 (by decide) (by decide)⟩

end CanvasBase

namespace CanvasBase

/-! ### Palette-indexed pixel copies (canvas_base.c:361-429)

A scanline is a `List Nat` of bytes, a bitmap's pixel data a
`List (List Nat)` of scanlines (the C walks `src` to
`end = src + y * src_stride`, one iteration per scanline).  The
`if (!palette) CANVAS_ERROR("no palette")` guard is the
`Option Palette` argument. -/

/-- `test_bit_be` (canvas_base.c:117): most-significant-bit-first bit
test within the bytes of a scanline. -/
def test_bit_be (row : List Nat) (bit : Nat) : Bool :=
  (row.getD (bit >>> 3) 0) &&& (0x80 >>> (bit &&& 0x07)) ≠ 0

/-- Inner loop of `canvas_copy_8bpp` (canvas_base.c:373): each source
byte is `ASSERT`ed `< num_ents` and replaced by its palette entry. -/
def copy_8bpp_pixels (pal : Palette) : List Nat → Option (List Nat)
  | [] => some []
  | b :: rest =>
    if b < pal.num_ents then
      (copy_8bpp_pixels pal rest).map (pal.ents b :: ·)
    else none

/-- One scanline of `canvas_copy_8bpp` (canvas_base.c:361): the first
`width` bytes of the line are converted. -/
def canvas_copy_8bpp_row (pal : Palette) (width : Nat) (row : List Nat) :
    Option (List Nat) :=
  copy_8bpp_pixels pal (row.take width)

/-- `canvas_copy_8bpp` over all scanlines. -/
def canvas_copy_8bpp (pal? : Option Palette) (width : Nat)
    (rows : List (List Nat)) : Option (List (List Nat)) :=
  match pal? with
  | none => none
  | some pal => rows.mapM (canvas_copy_8bpp_row pal width)

/-- Paired-nibble loop of `canvas_copy_4bpp_be` (canvas_base.c:392):
`k` iterations starting at byte index `idx` of the scanline; each
byte's two nibbles are `ASSERT`ed `< num_ents` and emit two pixels,
high nibble first. -/
def copy_4bpp_pairs (pal : Palette) (row : List Nat) : Nat → Nat → Option (List Nat)
  | _, 0 => some []
  | idx, k+1 =>
    if (row.getD idx 0 &&& 0x0f) < pal.num_ents then
      if ((row.getD idx 0 >>> 4) &&& 0x0f) < pal.num_ents then
        (copy_4bpp_pairs pal row (idx+1) k).map
          (fun rest => pal.ents ((row.getD idx 0 >>> 4) &&& 0x0f) ::
            pal.ents (row.getD idx 0 &&& 0x0f) :: rest)
      else none
    else none

/-- One scanline of `canvas_copy_4bpp_be` (canvas_base.c:380).  After
the `width >> 1` paired iterations, an odd `width` appends one trailing
pixel taken from `(*src >> 4) & 0x0f` — `src` is the scanline's start
pointer, so this is the high nibble of the scanline's FIRST byte, not
of the running `now` pointer — and with no range `ASSERT`. -/
def canvas_copy_4bpp_be_row (pal : Palette) (width : Nat) (row : List Nat) :
    Option (List Nat) :=
  (copy_4bpp_pairs pal row 0 (width >>> 1)).map (fun ps =>
    if width &&& 1 = 1 then ps ++ [pal.ents ((row.getD 0 0 >>> 4) &&& 0x0f)] else ps)

/-- `canvas_copy_4bpp_be` over all scanlines. -/
def canvas_copy_4bpp_be (pal? : Option Palette) (width : Nat)
    (rows : List (List Nat)) : Option (List (List Nat)) :=
  match pal? with
  | none => none
  | some pal => rows.mapM (canvas_copy_4bpp_be_row pal width)

/-- One scanline of `canvas_copy_1bpp_be` (canvas_base.c:404): bit `i`
(MSB-first, `test_bit_be`) selects `ents[1]` (fore) or `ents[0]`
(back).  The function performs no range check against `num_ents`. -/
def canvas_copy_1bpp_be_row (pal : Palette) (width : Nat) (row : List Nat) :
    List Nat :=
  (List.range width).map (fun i =>
    if test_bit_be row i then pal.ents 1 else pal.ents 0)

/-- `canvas_copy_1bpp_be` over all scanlines. -/
def canvas_copy_1bpp_be (pal? : Option Palette) (width : Nat)
    (rows : List (List Nat)) : Option (List (List Nat)) :=
  match pal? with
  | none => none
  | some pal => some (rows.map (canvas_copy_1bpp_be_row pal width))

/-- Palette for the C1 failing input: two entries, `ents[0] = 10`,
`ents[1] = 20` (out-of-range words continue the same pattern). -/
def palette_c1 : Palette :=
  ⟨2, fun i => 10 * i + 10⟩

/-- One-entry palette: `num_ents = 1`, `ents[i] = 30 + i`, so the
out-of-range word `ents[1]` reads `31`. -/
def palette_one_entry : Palette :=
  ⟨1, fun i => 30 + i⟩

end CanvasBase

namespace CanvasBase

/-- C1: evaluating `canvas_copy_4bpp_be` on the failing input — an
odd width of 3 with scanline bytes `[0x00, 0x10]` and the two-entry
palette `[10, 20]`.  The trailing byte `0x10` has high nibble 1, so
per the claim the final pixel should be `ents[1] = 20`; the code
instead reads the high nibble of the scanline's first byte (`*src`),
nibble 0, and writes `ents[0] = 10`. -/
theorem C1_trailing_nibble_eval :
    canvas_copy_4bpp_be (some palette_c1) 3 [[0x00, 0x10]] = some [[10, 10, 10]] ∧
    palette_c1.ents ((([0x00, 0x10].getD 1 0 : Nat) >>> 4) &&& 0x0f) = 20 := by
  constructor
  · rfl
  · rfl

end CanvasBase

namespace CanvasBase

/-- An out-of-range byte anywhere in the pixel list aborts the 8bpp
inner loop. -/
lemma copy_8bpp_pixels_oob (pal : Palette) :
    ∀ l : List Nat, ∀ b ∈ l, pal.num_ents ≤ b → copy_8bpp_pixels pal l = none := by
  intro l
  induction l with
  | nil => intro b hb; cases hb
  | cons hd tl ih =>
    intro b hb hge
    rcases List.mem_cons.mp hb with h | h
    · subst h
      simp [copy_8bpp_pixels, Nat.not_lt_of_le hge]
    · by_cases hhd : hd < pal.num_ents
      · simp [copy_8bpp_pixels, hhd, ih b h hge]
      · simp [copy_8bpp_pixels, hhd]

/-- If the paired-nibble loop completed, every nibble it visited was
in range. -/
lemma copy_4bpp_pairs_checked (pal : Palette) (row : List Nat) :
    ∀ k idx res, copy_4bpp_pairs pal row idx k = some res →
      ∀ j < k, (row.getD (idx + j) 0 &&& 0x0f) < pal.num_ents ∧
        ((row.getD (idx + j) 0 >>> 4) &&& 0x0f) < pal.num_ents := by
  intro k
  induction k with
  | zero => intro idx res _ j hj; omega
  | succ k ih =>
    intro idx res hres j hj
    rw [copy_4bpp_pairs] at hres
    by_cases h1 : (row.getD idx 0 &&& 0x0f) < pal.num_ents
    · by_cases h2 : ((row.getD idx 0 >>> 4) &&& 0x0f) < pal.num_ents
      · rw [if_pos h1, if_pos h2] at hres
        rcases j with _ | j
        · simp only [Nat.add_zero]
          exact ⟨h1, h2⟩
        · rcases Option.map_eq_some'.mp hres with ⟨res', hres', _⟩
          have := ih (idx + 1) res' hres' j (by omega)
          rwa [Nat.add_right_comm] at this
      · rw [if_pos h1, if_neg h2] at hres
        cases hres
    · rw [if_neg h1] at hres
      cases hres

/-- C2 counterexample: the 1-bit decode path completes on a palette
with `num_ents = 1 < 2` although pixel bit 1 references index 1:
the surface is built from the out-of-range word `ents[1] = 31`,
not aborted. -/
theorem C2_counterexample_1bpp_completes :
    palette_one_entry.num_ents < 2 ∧
    canvas_copy_1bpp_be (some palette_one_entry) 1 [[0x80]] = some [[31]] := by
  constructor
  · decide
  · rfl

/-- C2 (amended): the 8bpp path fails on any out-of-range byte among
the `width` bytes it reads; the 4bpp paired loop only completes when
every nibble it visits is in range; but the 1bpp path performs no
range check at all and always completes. -/
theorem C2_amended_range_checks :
    (∀ (pal : Palette) (width : Nat) (row : List Nat),
      (∃ b ∈ row.take width, pal.num_ents ≤ b) →
        canvas_copy_8bpp_row pal width row = none) ∧
    (∀ (pal : Palette) (row : List Nat) (k idx : Nat) (res : List Nat),
      copy_4bpp_pairs pal row idx k = some res →
        ∀ j < k, (row.getD (idx + j) 0 &&& 0x0f) < pal.num_ents ∧
          ((row.getD (idx + j) 0 >>> 4) &&& 0x0f) < pal.num_ents) ∧
    (∀ (pal : Palette) (width : Nat) (rows : List (List Nat)),
      (canvas_copy_1bpp_be (some pal) width rows).isSome = true) := by
  refine ⟨?_, ?_, ?_⟩
  · intro pal width row ⟨b, hmem, hge⟩
    exact copy_8bpp_pixels_oob pal _ b hmem hge
  · intro pal row k idx res hres
    exact copy_4bpp_pairs_checked pal row k idx res hres
  · intro pal width rows
    rfl

/-- Witness for C2 (amended): the 8bpp conjunct at a concrete
out-of-range byte, and the 1bpp conjunct at a concrete bitmap. -/
theorem C2_amended_range_checks_witness :
    canvas_copy_8bpp_row palette_one_entry 1 [5] = none ∧
    (canvas_copy_1bpp_be (some palette_one_entry) 8 [[0x55]]).isSome = true :=
  ⟨C2_amended_range_checks.1 palette_one_entry 1 [5]
      ⟨5, by decide, by decide⟩,
    C2_amended_range_checks.2.2 palette_one_entry 8 [[0x55]]⟩

end CanvasBase

namespace CanvasBase

/-! ### Surface inversion (canvas_base.c:984-1043) -/

/-- Byte complement with the uint8 store truncation: `~b` written back
to a `uint8_t`. -/
def bnot8 (b : Nat) : Nat :=
  (b % 256) ^^^ 0xff

/-- `canvas_A1_invers` (canvas_base.c:984): every byte of every
scanline (the `line_size` bytes of an A1 surface row) is complemented. -/
def canvas_A1_invers (rows : List (List Nat)) : List (List Nat) :=
  rows.map (fun row => row.map bnot8)

/-- Pixel transform of `canvas_surf_to_invers` (canvas_base.c:1039):
`~*(src) & 0x00ffffff` on a `uint32_t` word. -/
def canvas_surf_to_invers_pix (p : Nat) : Nat :=
  ((p % 2 ^ 32) ^^^ 0xffffffff) &&& 0x00ffffff

/-- `canvas_surf_to_invers` (canvas_base.c:1010): every 32-bit pixel
word of every row of an RGB24 surface is complemented and masked to
its low 24 bits. -/
def canvas_surf_to_invers (rows : List (List Nat)) : List (List Nat) :=
  rows.map (fun row => row.map canvas_surf_to_invers_pix)

/-- Complementing a byte twice restores it. -/
lemma bnot8_bnot8 (b : Nat) (h : b < 256) : bnot8 (bnot8 b) = b := by
  unfold bnot8
  rw [Nat.mod_eq_of_lt h]
  have h2 : b ^^^ 0xff < 256 := Nat.xor_lt_two_pow (n := 8) h (by norm_num)
  rw [Nat.mod_eq_of_lt h2, Nat.xor_assoc, Nat.xor_self, Nat.xor_zero]

/-- Complementing a scanline of bytes twice restores it. -/
lemma map_bnot8_twice : ∀ row : List Nat, (∀ b ∈ row, b < 256) →
    (row.map bnot8).map bnot8 = row
  | [], _ => rfl
  | b :: rest, h => by
    simp only [List.map_cons, List.cons.injEq]
    exact ⟨bnot8_bnot8 b (h b (List.mem_cons_self _ _)),
      map_bnot8_twice rest (fun x hx => h x (List.mem_cons_of_mem _ hx))⟩

/-- Applying the RGB24 pixel inversion twice yields the original
truncated to its low 24 bits — the unused high byte is zeroed. -/
lemma canvas_surf_to_invers_pix_twice (p : Nat) :
    canvas_surf_to_invers_pix (canvas_surf_to_invers_pix p) =
      (p % 2 ^ 32) &&& 0x00ffffff := by
  unfold canvas_surf_to_invers_pix
  set q := ((p % 2 ^ 32) ^^^ 0xffffffff) &&& 0x00ffffff with hq
  have hqle : q ≤ 0x00ffffff := Nat.and_le_right
  have hqlt : q < 2 ^ 24 := by omega
  have hq32 : q < 2 ^ 32 := by omega
  rw [Nat.mod_eq_of_lt hq32, Nat.and_xor_distrib_right]
  have hqK : q &&& 0x00ffffff = q := by
    have h24 : (0x00ffffff : Nat) = 2 ^ 24 - 1 := by norm_num
    rw [h24, Nat.and_pow_two_sub_one_eq_mod, Nat.mod_eq_of_lt hqlt]
  rw [hqK, hq, Nat.and_xor_distrib_right, Nat.xor_assoc, Nat.xor_self, Nat.xor_zero]

/-- Applying the RGB24 pixel inversion twice restores a pixel word
whose high byte is zero. -/
lemma map_surfpix_twice : ∀ row : List Nat, (∀ p ∈ row, p < 2 ^ 24) →
    (row.map canvas_surf_to_invers_pix).map canvas_surf_to_invers_pix = row
  | [], _ => rfl
  | p :: rest, h => by
    have hp : p < 2 ^ 24 := h p (List.mem_cons_self _ _)
    have hp32 : p < 2 ^ 32 := by omega
    simp only [List.map_cons, List.cons.injEq]
    refine ⟨?_, map_surfpix_twice rest (fun x hx => h x (List.mem_cons_of_mem _ hx))⟩
    rw [canvas_surf_to_invers_pix_twice, Nat.mod_eq_of_lt hp32]
    have h24 : (0x00ffffff : Nat) = 2 ^ 24 - 1 := by norm_num
    rw [h24, Nat.and_pow_two_sub_one_eq_mod, Nat.mod_eq_of_lt hp]

end CanvasBase

namespace CanvasBase

/-- C4 counterexample: an RGB24 surface whose single pixel word has a
nonzero (unused) high byte, `0xff000000`, double-inverts to `0`, not
back to itself: the word-level identity of the claim fails. -/
theorem C4_counterexample_high_byte :
    canvas_surf_to_invers (canvas_surf_to_invers [[0xff000000]]) = [[0]] ∧
    canvas_surf_to_invers (canvas_surf_to_invers [[0xff000000]]) ≠ [[0xff000000]] := by
  constructor
  · rfl
  · decide

/-- C4 (amended): double inversion is the identity on A1 surfaces
(byte lists, bytes `< 256`); on RGB24 each pixel word double-inverts to
its low 24 bits (the unused high byte is zeroed), hence double
inversion is the identity exactly on surfaces all of whose pixel words
have a zero high byte. -/
theorem C4_amended_double_inversion :
    (∀ rows : List (List Nat), (∀ row ∈ rows, ∀ b ∈ row, b < 256) →
      canvas_A1_invers (canvas_A1_invers rows) = rows) ∧
    (∀ p : Nat, canvas_surf_to_invers_pix (canvas_surf_to_invers_pix p) =
      (p % 2 ^ 32) &&& 0x00ffffff) ∧
    (∀ rows : List (List Nat), (∀ row ∈ rows, ∀ p ∈ row, p < 2 ^ 24) →
      canvas_surf_to_invers (canvas_surf_to_invers rows) = rows) := by
  refine ⟨?_, canvas_surf_to_invers_pix_twice, ?_⟩
  · intro rows h
    unfold canvas_A1_invers
    rw [List.map_map]
    conv_rhs => rw [← List.map_id rows]
    exact List.map_congr_left (fun row hrow =>
      map_bnot8_twice row (fun b hb => h row hrow b hb))
  · intro rows h
    unfold canvas_surf_to_invers
    rw [List.map_map]
    conv_rhs => rw [← List.map_id rows]
    exact List.map_congr_left (fun row hrow =>
      map_surfpix_twice row (fun p hp => h row hrow p hp))

/-- Witness for C4 (amended) at a concrete A1 surface `[[0x55]]` and a
concrete RGB24 surface `[[0x123456]]`. -/
theorem C4_amended_double_inversion_witness :
    canvas_A1_invers (canvas_A1_invers [[0x55]]) = [[0x55]] ∧
    canvas_surf_to_invers (canvas_surf_to_invers [[0x123456]]) = [[0x123456]] :=
  ⟨C4_amended_double_inversion.1 [[0x55]] (by decide),
    C4_amended_double_inversion.2.2 [[0x123456]] (by decide)⟩

end CanvasBase

namespace CanvasBase

/-! ### Palette resolution (canvas_base.c:490-510, CAIRO_CANVAS_CACHE) -/

/-- The two palette flags tested by `canvas_get_palett`:
`BITMAP_PAL_FROM_CACHE` and `BITMAP_PAL_CACHE_ME` of `draw.h`. -/
structure BitmapPalFlags where
  from_cache : Bool
  cache_me : Bool

/-- Observable outcome of a `canvas_get_palett` call: the returned
palette, the contents of the caller-owned inline palette buffer at
`GET_ADDRESS(base_palette)` after the call, and the palettes handed to
`palette_cache_put`. -/
structure PalettResult where
  palette : Option Palette
  inline_after : Palette
  cache_puts : List Palette

/-- `canvas_get_palett` (canvas_base.c:490).  `base_palette = 0` is the
null address; `inline_pal` models the palette stored in the wire buffer
at `GET_ADDRESS(base_palette)`; `cache_get` models
`palette_cache_get`.  On the CACHE_ME path the code localizes the
inline buffer in place (`canvas_localize_palette(canvas, palette)` on
the `GET_ADDRESS` pointer) and then hands that same buffer to
`palette_cache_put`; no copy is taken.  The plain inline path localizes
in place as well. -/
def canvas_get_palett (color_shift : Nat) (cache_get : Nat → Palette)
    (base_palette : Nat) (inline_pal : Palette) (flags : BitmapPalFlags) :
    PalettResult :=
  if base_palette = 0 then
    ⟨none, inline_pal, []⟩
  else if flags.from_cache then
    ⟨some (cache_get base_palette), inline_pal, []⟩
  else if flags.cache_me then
    ⟨some (canvas_localize_palette color_shift inline_pal),
      canvas_localize_palette color_shift inline_pal,
      [canvas_localize_palette color_shift inline_pal]⟩
  else
    ⟨some (canvas_localize_palette color_shift inline_pal),
      canvas_localize_palette color_shift inline_pal, []⟩

/-- Inline palette of the C3 counterexample: one entry holding the
16-bit word `0x001f`. -/
def palette_c3 : Palette :=
  ⟨1, fun _ => 0x001f⟩

end CanvasBase

namespace CanvasBase

/-- C3 counterexample: resolving a CacheMe palette in 16-bit color mode
(`color_shift = 5`) rewrites the caller-owned inline buffer in place:
entry 0, originally `0x001f`, reads `0xff` after the call — the buffer
is not left unchanged, and the localization did not act on a private
copy. -/
theorem C3_counterexample_inline_mutated :
    ((canvas_get_palett 5 (fun _ => palette_c3) 7 palette_c3
        ⟨false, true⟩).inline_after.ents 0 = 0xff) ∧
    palette_c3.ents 0 = 0x1f := by
  constructor
  · rfl
  · rfl

/-- C3 (amended): for a CacheMe palette the resolver localizes the
caller-owned inline buffer in place and inserts that same buffer into
the palette cache: the returned palette, the buffer contents after the
call, and the single cache insertion are all the localized original
(`canvas_localize_palette` of the inline palette), with no private
copy. -/
theorem C3_amended_cache_me_in_place (color_shift : Nat)
    (cache_get : Nat → Palette) (base_palette : Nat) (inline_pal : Palette)
    (hbase : base_palette ≠ 0) :
    (canvas_get_palett color_shift cache_get base_palette inline_pal
        ⟨false, true⟩).palette =
      some (canvas_localize_palette color_shift inline_pal) ∧
    (canvas_get_palett color_shift cache_get base_palette inline_pal
        ⟨false, true⟩).inline_after =
      canvas_localize_palette color_shift inline_pal ∧
    (canvas_get_palett color_shift cache_get base_palette inline_pal
        ⟨false, true⟩).cache_puts =
      [canvas_localize_palette color_shift inline_pal] := by
  unfold canvas_get_palett
  simp [hbase]

/-- Witness for C3 (amended) at `color_shift = 5`, base address 7,
and the concrete one-entry inline palette. -/
theorem C3_amended_cache_me_in_place_witness :
    (canvas_get_palett 5 (fun _ => palette_c3) 7 palette_c3
        ⟨false, true⟩).cache_puts = [canvas_localize_palette 5 palette_c3] :=
  (C3_amended_cache_me_in_place 5 (fun _ => palette_c3) 7 palette_c3
    (by decide)).2.2

end CanvasBase

namespace CanvasBase

/-! ### Bit reversal and mask scanlines (canvas_base.c:864-982) -/

/-- Loop body of `revers_bits` (canvas_base.c:869): iteration `i`
moves bit `i` to bit `7-i` and bit `7-i` to bit `i` via
`shift = 7 - i*2`. -/
def revers_bits_step (byte ret i : Nat) : Nat :=
  (ret ||| ((byte &&& (1 <<< i)) <<< (7 - i * 2))) |||
    ((byte &&& (0x80 >>> i)) >>> (7 - i * 2))

/-- `revers_bits` (canvas_base.c:864): reverse the bit order of a
byte; the C loop runs `i = 0..3`. -/
def revers_bits (byte : Nat) : Nat :=
  (List.range 4).foldl (revers_bits_step byte) 0

end CanvasBase

namespace CanvasBase

set_option maxRecDepth 2000 in
/-- C8: complement commutes with bit reversal — for every byte,
`~revers_bits(b) = revers_bits(~b)` — and therefore the fused
single-pass transform of `canvas_get_bitmap_mask` (write
`~revers_bits(*now)` per byte) produces exactly the bytes of the
two-pass form (bit-reverse the scanline, then complement it). -/
theorem C8_fused_reverse_invert :
    (∀ b < 256, bnot8 (revers_bits b) = revers_bits (bnot8 b)) ∧
    (∀ line : List Nat,
      line.map (fun b => bnot8 (revers_bits b)) =
        (line.map revers_bits).map bnot8) := by
  constructor
  · decide
  · intro line
    rw [List.map_map]
    rfl

/-- Witness for C8 at the concrete byte `0xb3`. -/
theorem C8_fused_reverse_invert_witness :
    bnot8 (revers_bits 0xb3) = revers_bits (bnot8 0xb3) :=
  C8_fused_reverse_invert.1 0xb3 (by decide)

end CanvasBase

namespace CanvasBase

/-! ### Destination row placement (canvas_base.c:431-486)

`canvas_bitmap_to_surface` writes one destination row per source
scanline, advancing the destination pointer by `dest_stride` rows;
when `BITMAP_TOP_DOWN` is clear it first moves the pointer to the last
row and negates the stride.  The destination memory is modelled as a
row-indexed function `Int → List Nat`. -/

/-- The per-row copy loop: write the rows of `rows` at positions
`pos, pos+stride, pos+2*stride, ...` of the destination. -/
def copy_rows (dest : Int → List Nat) (pos stride : Int) :
    List (List Nat) → (Int → List Nat)
  | [] => dest
  | r :: rest => copy_rows (fun q => if q = pos then r else dest q) (pos + stride) stride rest

/-- `canvas_bitmap_to_surface` row placement for the 32-bit format
(`canvas_copy_32bpp` copies `width` pixels per scanline).  With
`TopDown` clear the code `ASSERT`s `y > 0`, starts at destination row
`y - 1` and negates the stride (canvas_base.c:458-462). -/
def canvas_bitmap_to_surface_rows (top_down : Bool) (width : Nat)
    (rows : List (List Nat)) : Option (Int → List Nat) :=
  let lines := rows.map (fun r => r.take width)
  if top_down then
    some (copy_rows (fun _ => []) 0 1 lines)
  else
    if rows.length = 0 then none
    else some (copy_rows (fun _ => []) ((rows.length : Int) - 1) (-1) lines)

/-- Positions not of the form `pos + stride * j` are untouched by the
copy loop. -/
lemma copy_rows_untouched :
    ∀ (rows : List (List Nat)) (dest : Int → List Nat) (pos stride q : Int),
      (∀ j : Nat, j < rows.length → q ≠ pos + stride * j) →
      copy_rows dest pos stride rows q = dest q := by
  intro rows
  induction rows with
  | nil => intro dest pos stride q _; rfl
  | cons r rest ih =>
    intro dest pos stride q h
    rw [copy_rows, ih]
    · have hq : q ≠ pos := by
        have := h 0 (by simp)
        simpa using this
      simp [hq]
    · intro j hj hcontra
      apply h (j + 1) (by simpa using Nat.succ_lt_succ hj)
      rw [hcontra]
      push_cast
      ring

/-- The copy loop writes source row `j` at destination position
`pos + stride * j`. -/
lemma copy_rows_get :
    ∀ (rows : List (List Nat)) (dest : Int → List Nat) (pos stride : Int),
      stride ≠ 0 →
      ∀ j : Nat, j < rows.length →
        copy_rows dest pos stride rows (pos + stride * j) = rows.getD j [] := by
  intro rows
  induction rows with
  | nil => intro dest pos stride _ j hj; simp at hj
  | cons r rest ih =>
    intro dest pos stride hs j hj
    cases j with
    | zero =>
      rw [copy_rows]
      have hz : pos + stride * ((0 : Nat) : Int) = pos := by push_cast; ring
      rw [hz, copy_rows_untouched]
      · simp
      · intro j' _ hcontra
        have : stride * (1 + (j' : Int)) = 0 := by linarith [hcontra]
        rcases mul_eq_zero.mp this with h | h
        · exact hs h
        · omega
    | succ j =>
      rw [copy_rows]
      have hshift : pos + stride * ((j + 1 : Nat) : Int) =
          (pos + stride) + stride * (j : Nat) := by push_cast; ring
      rw [hshift, ih _ _ _ hs j (by simp only [List.length_cons] at hj; omega)]
      simp

end CanvasBase

namespace CanvasBase

/-- C6: with `TopDown` clear the conversion writes destination rows in
reverse order — destination row `i` holds (converted) source scanline
`y - 1 - i` — and with `TopDown` set, row order is preserved. -/
theorem C6_row_order (width : Nat) (rows : List (List Nat)) :
    (∀ surf, canvas_bitmap_to_surface_rows false width rows = some surf →
      ∀ i : Nat, i < rows.length →
        surf i = (rows.getD (rows.length - 1 - i) []).take width) ∧
    (∀ surf, canvas_bitmap_to_surface_rows true width rows = some surf →
      ∀ i : Nat, i < rows.length →
        surf i = (rows.getD i []).take width) := by
  constructor
  · intro surf hsurf i hi
    unfold canvas_bitmap_to_surface_rows at hsurf
    have hne : rows.length ≠ 0 := by omega
    rw [if_neg (by simp), if_neg hne] at hsurf
    have hsome := Option.some.inj hsurf
    subst hsome
    have hidx : (i : Int) =
        ((rows.length : Int) - 1) + (-1) * ((rows.length - 1 - i : Nat) : Int) := by
      omega
    rw [hidx, copy_rows_get _ _ _ _ (by norm_num) _ (by simp; omega)]
    rw [List.getD_eq_getElem?_getD, List.getElem?_map,
      List.getD_eq_getElem?_getD]
    have hlt : rows.length - 1 - i < rows.length := by omega
    rw [List.getElem?_eq_getElem hlt]
    rfl
  · intro surf hsurf i hi
    unfold canvas_bitmap_to_surface_rows at hsurf
    rw [if_pos (by simp)] at hsurf
    have hsome := Option.some.inj hsurf
    subst hsome
    have hidx : (i : Int) = 0 + 1 * (i : Int) := by ring
    rw [hidx, copy_rows_get _ _ _ _ (by norm_num) _ (by simpa using hi)]
    rw [List.getD_eq_getElem?_getD, List.getElem?_map,
      List.getD_eq_getElem?_getD]
    rw [List.getElem?_eq_getElem hi]
    rfl

/-- Witness for C6: the 2-row bottom-up bitmap with source scanlines
`[[1,2],[3,4]]` decodes with row order swapped — destination row 0 is
source row 1 and vice versa. -/
theorem C6_row_order_witness :
    (canvas_bitmap_to_surface_rows false 2 [[1, 2], [3, 4]]).getD (fun _ => []) 0
      = [3, 4] ∧
    (canvas_bitmap_to_surface_rows false 2 [[1, 2], [3, 4]]).getD (fun _ => []) 1
      = [1, 2] := by
  have h0 := (C6_row_order 2 [[1, 2], [3, 4]]).1
    ((canvas_bitmap_to_surface_rows false 2 [[1, 2], [3, 4]]).getD (fun _ => []))
    rfl 0 (by decide)
  have h1 := (C6_row_order 2 [[1, 2], [3, 4]]).1
    ((canvas_bitmap_to_surface_rows false 2 [[1, 2], [3, 4]]).getD (fun _ => []))
    rfl 1 (by decide)
  exact ⟨by simpa using h0, by simpa using h1⟩

end CanvasBase

namespace CanvasBase

/-! ### Chunked Quic input (canvas_base.c:199-204, 255-264, 1485-1497) -/

/-- `DataChunk` (canvas_base.c:199): `{size, prev, next, data[]}`.
`next` is an `ADDRESS`; 0 is the null address ending the list.  `prev`
is never read by this code and is omitted. -/
structure DataChunk where
  size : Nat
  next : Nat
  data : List Nat

/-- The chunk-traversal state kept in `QuicData`
(canvas_base.c:152-154): the protocol-relative address of the next
chunk and the session's address delta. -/
structure QuicState where
  next : Nat
  address_delta : Nat

/-- `quic_usr_more_space` (canvas_base.c:1485): with a null `next`
return 0 words; otherwise translate `next + address_delta`, advance
`next` to the chunk's own `next`, hand the engine the chunk's data and
return `size >> 2` words.  `mem` models `GET_ADDRESS` — the chunk
stored at each translated address. -/
def quic_usr_more_space (mem : Nat → DataChunk) (s : QuicState) :
    (Nat × List Nat) × QuicState :=
  if s.next = 0 then ((0, []), s)
  else
    let chunk := mem (s.next + s.address_delta)
    ((chunk.size >>> 2, chunk.data), ⟨chunk.next, s.address_delta⟩)

/-- What `canvas_get_quic` hands `quic_decode_begin`
(canvas_base.c:256-261): the first chunk's data and `size >> 2` words,
with the traversal state primed from the first chunk's `next` and the
canvas's `address_delta`. -/
structure QuicBegin where
  init_words : Nat
  init_data : List Nat
  state : QuicState

/-- The chunked setup of `canvas_get_quic` (canvas_base.c:256-259). -/
def canvas_get_quic_begin (address_delta : Nat) (first_chunk : DataChunk) :
    QuicBegin :=
  ⟨first_chunk.size >>> 2, first_chunk.data,
    ⟨first_chunk.next, address_delta⟩⟩

/-- Modelled from the spec: the Quic engine (quic.c, not part of this
repository) requests a refill via `more_space` when its input buffer
is exhausted; per §4.5 a call returning zero additional words
mid-decode is an incomplete-stream condition reported through the
fatal `error` callback, never silent truncation. -/
def quic_engine_refill (mem : Nat → DataChunk) (s : QuicState) :
    Except String ((Nat × List Nat) × QuicState) :=
  let r := quic_usr_more_space mem s
  if r.1.1 = 0 then .error "quic error, incomplete stream" else .ok r

end CanvasBase

namespace CanvasBase

/-- C7: over the chunk list `[C0(size=8, next=a1), C1(size=4,
next=null)]`, decode begins on C0's 8 bytes (2 words), the first
refill supplies exactly C1's 4 bytes (1 word) after translating `a1`
through the session address delta — the supplied spans are exactly
`d0` then `d1`, nothing lost or duplicated — the refill after the null
`next` is reported as an incomplete-stream error, and every
`more_space` call in a null-`next` state returns zero words. -/
theorem C7_chunk_traversal (delta a1 : Nat) (d0 d1 : List Nat)
    (mem : Nat → DataChunk) (ha1 : a1 ≠ 0)
    (hmem : mem (a1 + delta) = ⟨4, 0, d1⟩) :
    (canvas_get_quic_begin delta ⟨8, a1, d0⟩).init_words = 2 ∧
    (canvas_get_quic_begin delta ⟨8, a1, d0⟩).init_data = d0 ∧
    quic_engine_refill mem (canvas_get_quic_begin delta ⟨8, a1, d0⟩).state =
      .ok ((1, d1), ⟨0, delta⟩) ∧
    quic_engine_refill mem ⟨0, delta⟩ = .error "quic error, incomplete stream" ∧
    (∀ s : QuicState, s.next = 0 → quic_usr_more_space mem s = ((0, []), s)) := by
  refine ⟨by simp [canvas_get_quic_begin], rfl, ?_, by rfl, ?_⟩
  · unfold quic_engine_refill quic_usr_more_space canvas_get_quic_begin
    simp [ha1, hmem]
  · intro s hs
    unfold quic_usr_more_space
    rw [if_pos hs]

/-- Witness for C7 at concrete addresses and payloads: delta 100,
second chunk at protocol address 5 (local 105), payloads
`[1,...,8]` and `[9,10,11,12]`. -/
theorem C7_chunk_traversal_witness :
    quic_engine_refill
        (fun addr => if addr = 105 then ⟨4, 0, [9, 10, 11, 12]⟩ else ⟨0, 0, []⟩)
        (canvas_get_quic_begin 100 ⟨8, 5, [1, 2, 3, 4, 5, 6, 7, 8]⟩).state =
      .ok ((1, [9, 10, 11, 12]), ⟨0, 100⟩) :=
  (C7_chunk_traversal 100 5 [1, 2, 3, 4, 5, 6, 7, 8] [9, 10, 11, 12]
    (fun addr => if addr = 105 then ⟨4, 0, [9, 10, 11, 12]⟩ else ⟨0, 0, []⟩)
    (by decide) (by norm_num)).2.2.1

end CanvasBase

namespace CanvasBase

/-! ### Mask generation and the bits cache (canvas_base.c:877-982,
1094-1149) -/

/-- The `ALIGN(a, b)` macro (canvas_base.c:66) for a power-of-two
`b`: round `a` up to a multiple of `b`. -/
def ALIGN (a b : Nat) : Nat :=
  ((a + (b - 1)) / b) * b

/-- The bitmap formats `canvas_get_bitmap_mask` accepts; every other
format hits the `CANVAS_ERROR("invalid bitmap format")` default. -/
inductive MaskBitmapFmt where
  | bitmap_fmt_1bit_le
  | bitmap_fmt_1bit_be
  | invalid
deriving DecidableEq

/-- Scanline transform of `canvas_get_bitmap_mask` in the default
(non-GL, non-GDI) build: with inversion requested, `1BIT_LE` lines are
complemented and `1BIT_BE` lines get the fused `~revers_bits(*now)`;
without inversion, `1BIT_LE` lines are `memcpy`ed and `1BIT_BE` lines
bit-reversed.  Other formats are fatal. -/
def mask_line_transform (fmt : MaskBitmapFmt) (invers : Bool) :
    Option (Nat → Nat) :=
  match invers, fmt with
  | true, .bitmap_fmt_1bit_le => some bnot8
  | true, .bitmap_fmt_1bit_be => some (fun b => bnot8 (revers_bits b))
  | false, .bitmap_fmt_1bit_le => some (fun b => b)
  | false, .bitmap_fmt_1bit_be => some revers_bits
  | _, .invalid => none

/-- Read the destination memory back as the surface's row list. -/
def realize_rows (f : Int → List Nat) (y : Nat) : List (List Nat) :=
  (List.range y).map (fun i => f i)

/-- `canvas_get_bitmap_mask` (canvas_base.c:877): transform
`line_size = ALIGN(x, 8) >> 3` bytes of each scanline, writing
destination rows top-down when `BITMAP_TOP_DOWN` is set and in reverse
order (last row first, negated stride, canvas_base.c:908-913)
otherwise. -/
def canvas_get_bitmap_mask (fmt : MaskBitmapFmt) (top_down : Bool) (x : Nat)
    (rows : List (List Nat)) (invers : Bool) : Option (List (List Nat)) :=
  match mask_line_transform fmt invers with
  | none => none
  | some f =>
    let line_size := ALIGN x 8 >>> 3
    let lines := rows.map (fun row => (row.take line_size).map f)
    if top_down then
      some (realize_rows (copy_rows (fun _ => []) 0 1 lines) rows.length)
    else
      if rows.length = 0 then none
      else
        some (realize_rows
          (copy_rows (fun _ => []) ((rows.length : Int) - 1) (-1) lines)
          rows.length)

/-- The image types `canvas_get_mask` dispatches on; other types hit
`CANVAS_ERROR("invalid image type")`. -/
inductive MaskImageType where
  | image_type_bitmap
  | image_type_from_cache
deriving DecidableEq

/-- The descriptor fields `canvas_get_mask` reads: the type, the
`IMAGE_CACHE_ME` flag and the cache id. -/
structure MaskDescriptor where
  dtype : MaskImageType
  cache_me : Bool
  id : Nat

/-- `canvas_get_mask` (canvas_base.c:1094) over a bits-cache modelled
as `Nat → Option surface`.  `need_invers` is `mask->flags &
MASK_INVERS`.  For a bitmap descriptor `is_invers = need_invers &&
!cache_me` suppresses the inversion inside the conversion whenever the
result will be cached; the surface (uninverted in that case) is then
inserted under `descriptor->id`, and only afterwards, when
`need_invers && !is_invers`, the returned surface is replaced by the
attached inverse (`canvas_handle_inverse_user_data`, which on an A1
surface with no prior attachment computes `canvas_A1_invers`).
Returns the surface handed to the caller and the cache after the
call. -/
def canvas_get_mask (cache : Nat → Option (List (List Nat)))
    (desc : MaskDescriptor) (need_invers : Bool) (fmt : MaskBitmapFmt)
    (top_down : Bool) (x : Nat) (rows : List (List Nat)) :
    Option (List (List Nat) × (Nat → Option (List (List Nat)))) :=
  match desc.dtype with
  | .image_type_bitmap =>
    let is_invers := need_invers && !desc.cache_me
    match canvas_get_bitmap_mask fmt top_down x rows is_invers with
    | none => none
    | some surface =>
      let cache' := if desc.cache_me then
        (fun i => if i = desc.id then some surface else cache i) else cache
      if need_invers && !is_invers then
        some (canvas_A1_invers surface, cache')
      else
        some (surface, cache')
  | .image_type_from_cache =>
    match cache desc.id with
    | none => none
    | some surface =>
      let cache' := if desc.cache_me then
        (fun i => if i = desc.id then some surface else cache i) else cache
      if need_invers then
        some (canvas_A1_invers surface, cache')
      else
        some (surface, cache')

end CanvasBase

namespace CanvasBase

/-- C10: for a bitmap mask whose descriptor carries CacheMe and whose
QMask flags request inversion, the inversion is suppressed during the
bitmap-to-mask conversion (`is_invers = false`), the surface inserted
into the bits cache under the descriptor's id is the uninverted mask
`m`, the caller receives the separately computed inverse
`canvas_A1_invers m`, and a later FromCache lookup of that id (without
inversion) observes the uninverted raster `m`. -/
theorem C10_cache_me_stores_uninverted
    (cache : Nat → Option (List (List Nat))) (id : Nat)
    (fmt : MaskBitmapFmt) (top_down : Bool) (x : Nat)
    (rows m : List (List Nat))
    (hm : canvas_get_bitmap_mask fmt top_down x rows false = some m) :
    canvas_get_mask cache ⟨.image_type_bitmap, true, id⟩ true fmt top_down x rows =
      some (canvas_A1_invers m,
        fun i => if i = id then some m else cache i) ∧
    canvas_get_mask (fun i => if i = id then some m else cache i)
        ⟨.image_type_from_cache, false, id⟩ false fmt top_down x rows =
      some (m, fun i => if i = id then some m else cache i) := by
  constructor
  · unfold canvas_get_mask
    simp [hm]
  · unfold canvas_get_mask
    simp

/-- Witness for C10: an 8-pixel-wide 1BIT_BE one-scanline bitmap
`[[0x01]]`; the uninverted mask is `[[0x80]]` (bit reversal), the
cache receives it, and the caller gets its complement `[[0x7f]]`. -/
theorem C10_cache_me_stores_uninverted_witness :
    canvas_get_mask (fun _ => none) ⟨.image_type_bitmap, true, 3⟩ true
        .bitmap_fmt_1bit_be true 8 [[0x01]] =
      some (canvas_A1_invers [[0x80]],
        fun i => if i = 3 then some [[0x80]] else none) :=
  (C10_cache_me_stores_uninverted (fun _ => none) 3 .bitmap_fmt_1bit_be true 8
    [[0x01]] [[0x80]] (by rfl)).1

end CanvasBase

namespace CanvasBase

/-! ### The inverse-surface attach race (canvas_base.c:1051-1092,
CAIRO_CANVAS_CACH_IS_SHARED build)

`canvas_handle_inverse_user_data` performs, per thread: (1) under the
mutex, read the surface's `invers_data_type` user data; if present,
reference and return it; (2) otherwise compute an inverse surface
outside the lock; (3) re-acquire the mutex, and only if the user data
is still absent attach the computed surface; in either case return
`inv_surf` — the thread's OWN computation.  Each mutex-protected
section is one atomic step; thread `t`'s computed inverse instance is
identified by `t.val`; the user-data slot is `attachment`. -/

/-- Where a thread is in `canvas_handle_inverse_user_data`: before the
first locked lookup, after computing its own inverse, or returned. -/
inductive ThreadPhase where
  | start
  | computed
  | done

/-- One thread's state: its phase and, once done, the surface instance
it returns. -/
structure ThreadSt where
  phase : ThreadPhase
  ret : Option Nat

/-- The shared state: the surface's `invers_data_type` user-data slot
and the `n` threads. -/
structure InvCacheState (n : Nat) where
  attachment : Option Nat
  threads : Fin n → ThreadSt

/-- All `n` threads about to make their first access; no inverse
attached yet. -/
def inv_init (n : Nat) : InvCacheState n :=
  ⟨none, fun _ => ⟨.start, none⟩⟩

/-- One atomic step of thread `t` (the next mutex-protected section of
canvas_base.c:1051-1092).  In the `.computed`/`some` case — the thread
lost the attach race — the code skips `cairo_surface_set_user_data`
and still returns its own `inv_surf` (`t.val`), not the attached
surface. -/
def inv_step {n : Nat} (g : InvCacheState n) (t : Fin n) : InvCacheState n :=
  match (g.threads t).phase with
  | .start =>
    match g.attachment with
    | some a => ⟨g.attachment, fun u => if u = t then ⟨.done, some a⟩ else g.threads u⟩
    | none => ⟨g.attachment, fun u => if u = t then ⟨.computed, none⟩ else g.threads u⟩
  | .computed =>
    match g.attachment with
    | none => ⟨some t.val, fun u => if u = t then ⟨.done, some t.val⟩ else g.threads u⟩
    | some _ => ⟨g.attachment, fun u => if u = t then ⟨.done, some t.val⟩ else g.threads u⟩
  | .done => g

/-- Run a schedule: an arbitrary interleaving of thread steps. -/
def inv_run {n : Nat} (g : InvCacheState n) : List (Fin n) → InvCacheState n
  | [] => g
  | t :: rest => inv_run (inv_step g t) rest

/-- A step never replaces an existing attachment. -/
lemma inv_step_attach_mono {n : Nat} (g : InvCacheState n) (t : Fin n) (v : Nat)
    (h : g.attachment = some v) : (inv_step g t).attachment = some v := by
  unfold inv_step
  cases hp : (g.threads t).phase <;> simp [hp, h]

/-- A run never replaces an existing attachment: the user-data slot is
written at most once. -/
lemma inv_run_attach_mono {n : Nat} (sched : List (Fin n)) :
    ∀ (g : InvCacheState n) (v : Nat), g.attachment = some v →
      (inv_run g sched).attachment = some v := by
  induction sched with
  | nil => intro g v h; exact h
  | cons t rest ih => intro g v h; exact ih _ _ (inv_step_attach_mono g t v h)

/-- Every completed thread returns either its own computed instance or
the currently attached one. -/
def returns_own_or_attached {n : Nat} (g : InvCacheState n) : Prop :=
  ∀ (t : Fin n) (r : Nat), (g.threads t).ret = some r →
    r = t.val ∨ g.attachment = some r

/-- `returns_own_or_attached` is preserved by every step. -/
lemma inv_step_preserves {n : Nat} (g : InvCacheState n) (t : Fin n)
    (h : returns_own_or_attached g) :
    returns_own_or_attached (inv_step g t) := by
  intro u r hr
  unfold inv_step at hr ⊢
  cases hp : (g.threads t).phase with
  | start =>
    cases ha : g.attachment with
    | some a =>
      simp only [hp, ha] at hr ⊢
      by_cases hu : u = t
      · subst hu
        simp only [if_pos rfl] at hr
        right
        simpa using hr
      · simp only [if_neg hu] at hr
        rcases h u r hr with h1 | h2
        · exact Or.inl h1
        · right; rw [ha] at h2; exact h2
    | none =>
      simp only [hp, ha] at hr ⊢
      by_cases hu : u = t
      · subst hu
        simp only [if_pos rfl] at hr
        cases hr
      · simp only [if_neg hu] at hr
        rcases h u r hr with h1 | h2
        · exact Or.inl h1
        · rw [ha] at h2; cases h2
  | computed =>
    cases ha : g.attachment with
    | none =>
      simp only [hp, ha] at hr ⊢
      by_cases hu : u = t
      · subst hu
        simp only [if_pos rfl] at hr
        left
        simpa using hr.symm
      · simp only [if_neg hu] at hr
        rcases h u r hr with h1 | h2
        · exact Or.inl h1
        · rw [ha] at h2; cases h2
    | some a =>
      simp only [hp, ha] at hr ⊢
      by_cases hu : u = t
      · subst hu
        simp only [if_pos rfl] at hr
        left
        simpa using hr.symm
      · simp only [if_neg hu] at hr
        rcases h u r hr with h1 | h2
        · exact Or.inl h1
        · right; rw [ha] at h2; exact h2
  | done =>
    simp only [hp] at hr ⊢
    exact h u r hr

/-- `returns_own_or_attached` holds after any run from a state where
it holds. -/
lemma inv_run_preserves {n : Nat} (sched : List (Fin n)) :
    ∀ g : InvCacheState n, returns_own_or_attached g →
      returns_own_or_attached (inv_run g sched) := by
  induction sched with
  | nil => intro g h; exact h
  | cons t rest ih => intro g h; exact ih _ (inv_step_preserves g t h)

end CanvasBase

namespace CanvasBase

/-- C9 counterexample: two threads, schedule `[0, 1, 0, 1]` (both
first-lookups happen before either attach).  Thread 0 wins the attach
race: the attachment and thread 0's result are instance 0.  Thread 1
loses the race but returns its own computed instance 1 — not the
winner's — so the callers do not all receive the same instance. -/
theorem C9_counterexample_loser_keeps_own :
    (inv_run (inv_init 2) [0, 1, 0, 1]).attachment = some 0 ∧
    ((inv_run (inv_init 2) [0, 1, 0, 1]).threads 0).ret = some 0 ∧
    ((inv_run (inv_init 2) [0, 1, 0, 1]).threads 1).ret = some 1 ∧
    ((inv_run (inv_init 2) [0, 1, 0, 1]).threads 1).ret ≠
      ((inv_run (inv_init 2) [0, 1, 0, 1]).threads 0).ret := by
  refine ⟨rfl, rfl, rfl, by decide⟩

/-- C9 (amended): the user-data slot is written at most once (exactly
one computed inverse ends up attached), and every completed caller
returns either the attached instance or its own computation; but a
caller that loses the attach race keeps its own computation — in the
two-thread schedule `[0, 1, 0, 1]` the loser returns instance 1 while
the attachment is instance 0 — so concurrent first-accessors may
observe distinct instances. -/
theorem C9_amended_attach_once_loser_keeps_own :
    (∀ (n : Nat) (sched : List (Fin n)) (g : InvCacheState n) (v : Nat),
      g.attachment = some v → (inv_run g sched).attachment = some v) ∧
    (∀ (n : Nat) (sched : List (Fin n)) (t : Fin n) (r : Nat),
      ((inv_run (inv_init n) sched).threads t).ret = some r →
        r = t.val ∨ (inv_run (inv_init n) sched).attachment = some r) ∧
    ((inv_run (inv_init 2) [1, 0, 1, 0]).attachment = some 1 ∧
      ((inv_run (inv_init 2) [1, 0, 1, 0]).threads 0).ret = some 0 ∧
      ((inv_run (inv_init 2) [1, 0, 1, 0]).threads 1).ret = some 1) := by
  refine ⟨?_, ?_, rfl, rfl, rfl⟩
  · intro n sched g v h
    exact inv_run_attach_mono sched g v h
  · intro n sched t r hr
    refine inv_run_preserves sched (inv_init n) ?_ t r hr
    intro u r' hr'
    simp [inv_init] at hr'

/-- Witness for C9 (amended): the write-once conjunct at a concrete
state and schedule, and the return characterization at a concrete
completed run. -/
theorem C9_amended_attach_once_witness :
    (inv_run (⟨some 7, fun _ => ⟨.start, none⟩⟩ : InvCacheState 2)
      [0, 1, 0, 1]).attachment = some 7 ∧
    ((0 : Nat) = (0 : Fin 2).val ∨
      (inv_run (inv_init 2) [0, 0, 1, 1]).attachment = some 0) :=
  ⟨C9_amended_attach_once_loser_keeps_own.1 2 [0, 1, 0, 1] _ 7 rfl,
    C9_amended_attach_once_loser_keeps_own.2.1 2 [0, 0, 1, 1] 0 0 rfl⟩

end CanvasBase
